import Mathlib

/-!
Verification of the `SparseBiasLayer` class from
`src/mlpack/methods/ann/layer/sparse_bias_layer.hpp`.

The layer stores five armadillo matrix buffers, two size scalars, a raw
pointer to an optimizer object and an ownership flag.  Matrices are
embedded as lists of rows with rational entries; a matrix is well formed
when all rows have the same length.  Armadillo's runtime conformance
check on `operator+` (which throws `std::logic_error` on a dimension
mismatch) is embedded by returning `Option`: `none` is the error case.
The optimizer pointer is embedded as `Option Nat`, a nullable handle
identifying the optimizer instance; `delete` on a handle is recorded as
a release event of that identifier.
-/

namespace Mlpack

/-- A dense real matrix (`arma::Mat<eT>`), embedded as a list of rows of
rationals.  `n_rows` is the list length; `n_cols` the length of the first
row (0 for an empty matrix). -/
abbrev Mat : Type := List (List ℚ)

/-- Number of rows of a matrix (`.n_rows`). -/
def nRows (m : Mat) : Nat := m.length

/-- Number of columns of a matrix (`.n_cols`): length of the first row,
0 when there are no rows. -/
def nCols (m : Mat) : Nat :=
  match m with
  | [] => 0
  | r :: _ => r.length

/-- Well-formedness: every row has length `nCols m` (armadillo matrices
are rectangular by construction). -/
def MatWF (m : Mat) : Prop := ∀ r ∈ m, r.length = nCols m

instance (m : Mat) : Decidable (MatWF m) := by
  unfold MatWF; infer_instance

/-- Entry `m(i, j)`, with defaults outside the bounds. -/
def entry (m : Mat) (i j : Nat) : ℚ := (m.getD i []).getD j 0

/-- `arma::repmat(a, r, c)`: tile the matrix `a` in an `r × c` block
grid (`r` copies vertically, `c` copies horizontally). -/
def repmat (a : Mat) (r c : Nat) : Mat :=
  (List.replicate r (a.map (fun row => (List.replicate c row).flatten))).flatten

/-- Armadillo matrix addition `a + b`: elementwise sum when the shapes
conform, `none` (the thrown `logic_error`) otherwise. -/
def matAdd (a b : Mat) : Option Mat :=
  if nRows a = nRows b ∧ nCols a = nCols b then
    some (List.zipWith (fun ra rb => List.zipWith (fun x y => x + y) ra rb) a b)
  else none

/-- `arma::sum(d, 1)`: column vector of the row sums of `d`. -/
def rowSums (d : Mat) : Mat := d.map (fun row => [row.sum])

/-- Matrix divided by a scalar, elementwise. -/
def matDivScalar (a : Mat) (s : ℚ) : Mat :=
  a.map (fun row => row.map (fun x => x / s))

/-- The state of a `SparseBiasLayer` object: the two size scalars, the
five matrix buffers, the optimizer pointer (a nullable handle) and the
ownership flag, exactly the private members of the class. -/
structure SparseBiasLayer where
  outSize : Nat
  sampleSize : Nat
  weights : Mat
  delta : Mat
  gradient : Mat
  inputParameter : Mat
  outputParameter : Mat
  optimizer : Option Nat
  ownsOptimizer : Bool
deriving DecidableEq, Repr

namespace SparseBiasLayer

/-- The constructor `SparseBiasLayer(outSize, sampleSize, weightInitRule)`:
stores the two sizes, allocates a fresh optimizer bound to this layer
(handle `optId`) marked owned, and fills `weights` with
`weightInitRule.Initialize(weights, outSize, 1)`; the weight
initialization rule is the external strategy `init`.  The other four
buffers start as default (empty) armadillo matrices. -/
def construct (outSize sampleSize : Nat) (init : Nat → Nat → Mat)
    (optId : Nat) : SparseBiasLayer :=
  { outSize := outSize
    sampleSize := sampleSize
    weights := init outSize 1
    delta := []
    gradient := []
    inputParameter := []
    outputParameter := []
    optimizer := some optId
    ownsOptimizer := true }

/-- The move assignment `operator=(SparseBiasLayer&&)`: the target takes
the source's optimizer pointer and ownership flag and the source's are
nulled/cleared; `outSize` and `sampleSize` are copied from the source;
the five buffers are `swap`ped between target and source.  Returns
(new target, new source). -/
def moveAssign (target source : SparseBiasLayer) :
    SparseBiasLayer × SparseBiasLayer :=
  ({ outSize := source.outSize
     sampleSize := source.sampleSize
     weights := source.weights
     delta := source.delta
     gradient := source.gradient
     inputParameter := source.inputParameter
     outputParameter := source.outputParameter
     optimizer := source.optimizer
     ownsOptimizer := source.ownsOptimizer },
   { outSize := source.outSize
     sampleSize := source.sampleSize
     weights := target.weights
     delta := target.delta
     gradient := target.gradient
     inputParameter := target.inputParameter
     outputParameter := target.outputParameter
     optimizer := none
     ownsOptimizer := false })

/-- The state of a freshly default-initialized move-construction target
before `*this = std::move(layer)` runs: the five armadillo buffers are
default constructed (empty).  The scalar members and the pointer/flag are
indeterminate in C++ but are written before ever being read by the move
assignment, so any value here is faithful; we pick zeros/null. -/
def emptyTarget : SparseBiasLayer :=
  { outSize := 0
    sampleSize := 0
    weights := []
    delta := []
    gradient := []
    inputParameter := []
    outputParameter := []
    optimizer := none
    ownsOptimizer := false }

/-- The move constructor `SparseBiasLayer(SparseBiasLayer&&)`: default
initialization followed by move assignment from the source.  Returns
(constructed layer, moved-from source). -/
def moveConstruct (source : SparseBiasLayer) :
    SparseBiasLayer × SparseBiasLayer :=
  moveAssign emptyTarget source

/-- The destructor: `if (ownsOptimizer) delete optimizer;`.  Returns the
list of optimizer handles released (`delete` of a null pointer releases
nothing). -/
def destroyReleases (l : SparseBiasLayer) : List Nat :=
  if l.ownsOptimizer then
    match l.optimizer with
    | some i => [i]
    | none => []
  else []

/-- `Forward(input, output)`: writes
`output = input + arma::repmat(weights, 1, input.n_cols)`; `none` when
armadillo's conformance check on the addition fails. -/
def Forward (l : SparseBiasLayer) (input : Mat) : Option Mat :=
  matAdd input (repmat l.weights 1 (nCols input))

/-- `Backward(input, gy, g)`: writes `g = gy`; the `input` argument is
unused by the body. -/
def Backward (_l : SparseBiasLayer) (_input gy : Mat) : Mat := gy

/-- The value written to `g` by `Gradient(d, g)`:
`g = arma::sum(d, 1) / static_cast<eT>(sampleSize)`. -/
def GradientVal (l : SparseBiasLayer) (d : Mat) : Mat :=
  matDivScalar (rowSums d) (l.sampleSize : ℚ)

/-- `Gradient(d, g)` as a state transformer: the body assigns only to
the caller-supplied output `g`; no member of the layer is written.
Returns (layer after the call, value written to `g`). -/
def GradientOp (l : SparseBiasLayer) (d : Mat) : SparseBiasLayer × Mat :=
  (l, l.GradientVal d)

/-- Whether the layer is a live owner of the optimizer instance with
handle `j`: its owning flag is set and its pointer designates `j`. -/
def ownsHandle (l : SparseBiasLayer) (j : Nat) : Bool :=
  l.ownsOptimizer && (l.optimizer == some j)

/-- The number of live owners of the optimizer instance `j` among a
collection of layers. -/
def ownerCount (ls : List SparseBiasLayer) (j : Nat) : Nat :=
  (ls.filter (fun l => ownsHandle l j)).length

/-- Move-construct a fresh layer from `l`, then from the result, `n`
times in total.  Returns the list of moved-from husks produced along the
way and the final layer. -/
def moveChain : Nat → SparseBiasLayer → List SparseBiasLayer × SparseBiasLayer
  | 0, l => ([], l)
  | n + 1, l =>
      let p := moveConstruct l
      let q := moveChain n p.1
      (p.2 :: q.1, q.2)

end SparseBiasLayer

/-- The capability descriptor `LayerTraits<...>`: five boolean
class-level constants. -/
structure LayerTraits where
  IsBinary : Bool
  IsOutputLayer : Bool
  IsBiasLayer : Bool
  IsLSTMLayer : Bool
  IsConnection : Bool
deriving DecidableEq, Repr

/-- The specialization `LayerTraits<SparseBiasLayer<...>>`: a type-level
constant, the same for every instantiation of the class template and
independent of any object state. -/
def sparseBiasLayerTraits : LayerTraits :=
  { IsBinary := false
    IsOutputLayer := false
    IsBiasLayer := true
    IsLSTMLayer := false
    IsConnection := true }

/-- A concrete layer state with non-empty buffers, owning optimizer 1. -/
def layerA : SparseBiasLayer :=
  { outSize := 2
    sampleSize := 3
    weights := [[1], [2]]
    delta := [[1, 1]]
    gradient := [[2]]
    inputParameter := [[3]]
    outputParameter := [[4]]
    optimizer := some 1
    ownsOptimizer := true }

/-- A second concrete layer state with non-empty buffers, owning
optimizer 2. -/
def layerB : SparseBiasLayer :=
  { outSize := 1
    sampleSize := 1
    weights := [[5]]
    delta := [[6]]
    gradient := [[7]]
    inputParameter := [[8]]
    outputParameter := [[9]]
    optimizer := some 2
    ownsOptimizer := true }

/-- Flattening `k` copies of a one-element row yields `k` copies of the
element. -/
theorem flatten_replicate_singleton {α : Type} (k : Nat) (x : α) :
    (List.replicate k [x]).flatten = List.replicate k x := by
  induction k with
  | zero => rfl
  | succ k ih => simp [List.replicate_succ, ih]

/-- `repmat(a, 1, c)` tiles each row of `a` horizontally `c` times. -/
theorem repmat_one_eq (a : Mat) (c : Nat) :
    repmat a 1 c = a.map fun row => (List.replicate c row).flatten := by
  unfold repmat
  simp

/-- `repmat(a, 1, c)` has as many rows as `a`. -/
theorem length_repmat_one (a : Mat) (c : Nat) :
    (repmat a 1 c).length = a.length := by
  rw [repmat_one_eq]
  exact List.length_map a _

/-- Inside the bounds, `entry` agrees with list indexing. -/
theorem entry_eq_getElem (m : Mat) (i j : Nat) (hi : i < m.length)
    (hj : j < (m[i]).length) : entry m i j = m[i][j] := by
  unfold entry
  rw [List.getD_eq_getElem m [] hi, List.getD_eq_getElem _ _ hj]

/-- Row `i` of `repmat(w, 1, k)` for a matrix `w` of one-element rows is
`k` copies of `w(i, 0)`. -/
theorem repmat_one_row (w : Mat) (k i : Nat)
    (hwc : ∀ r ∈ w, r.length = 1) (hi : i < w.length) :
    (repmat w 1 k).getD i [] = List.replicate k (entry w i 0) := by
  obtain ⟨x, hx⟩ := List.length_eq_one.mp (hwc (w[i]) (List.getElem_mem hi))
  have hi2 : i < (repmat w 1 k).length := by
    rw [length_repmat_one]
    exact hi
  rw [List.getD_eq_getElem _ _ hi2,
    List.getElem_of_eq (repmat_one_eq w k) hi2, List.getElem_map, hx,
    flatten_replicate_singleton]
  have hx0 : entry w i 0 = x := by
    unfold entry
    rw [List.getD_eq_getElem w [] hi, hx]
    rfl
  rw [hx0]

/-- The column count of a matrix is the length of its row 0 (with the
empty-row default for an empty matrix). -/
theorem nCols_eq_getD (m : Mat) : nCols m = (m.getD 0 []).length := by
  cases m <;> rfl

namespace SparseBiasLayer

/-- C3: `Backward(input, gy, g)` writes `g = gy` exactly, so the result
has the shape of `gy` and does not depend on the layer state or on the
value of `input`. -/
theorem backward_identity (l : SparseBiasLayer) (input gy : Mat) :
    l.Backward input gy = gy ∧
    nRows (l.Backward input gy) = nRows gy ∧
    nCols (l.Backward input gy) = nCols gy ∧
    ∀ l2 : SparseBiasLayer, ∀ input2 : Mat,
      l2.Backward input2 gy = l.Backward input gy :=
  ⟨rfl, rfl, rfl, fun _ _ => rfl⟩

/-- C10: `Gradient(d, g)` writes only the caller-supplied output `g`:
every member of the layer — the stored `gradient` buffer, `weights`,
`delta`, `inputParameter`, `outputParameter`, `outSize`, `sampleSize`,
the optimizer pointer and the ownership flag — is unchanged, and the
value written to `g` is exactly `sum(d, 1) / sampleSize`. -/
theorem gradient_call_frame (l : SparseBiasLayer) (d : Mat) :
    (GradientOp l d).1 = l ∧
    (GradientOp l d).1.gradient = l.gradient ∧
    (GradientOp l d).1.weights = l.weights ∧
    (GradientOp l d).1.delta = l.delta ∧
    (GradientOp l d).1.inputParameter = l.inputParameter ∧
    (GradientOp l d).1.outputParameter = l.outputParameter ∧
    (GradientOp l d).1.outSize = l.outSize ∧
    (GradientOp l d).1.sampleSize = l.sampleSize ∧
    (GradientOp l d).1.optimizer = l.optimizer ∧
    (GradientOp l d).1.ownsOptimizer = l.ownsOptimizer ∧
    (GradientOp l d).2 = l.GradientVal d :=
  ⟨rfl, rfl, rfl, rfl, rfl, rfl, rfl, rfl, rfl, rfl, rfl⟩

/-- The value `Gradient(d, g)` writes to `g`, in row form: each row of
`d` becomes the one-element row holding its sum divided by the
configured sample size. -/
theorem GradientVal_eq (l : SparseBiasLayer) (d : Mat) :
    l.GradientVal d =
      d.map fun r => [r.sum / (l.sampleSize : ℚ)] := by
  unfold GradientVal matDivScalar rowSums
  rw [List.map_map]
  rfl

/-- C1: for an error matrix `d` with `outSize` rows and a positive
configured `sampleSize`, `Gradient(d, g)` writes a column vector of
`outSize` one-element rows whose entry `i` is the sum of row `i` of `d`
divided by the configured `sampleSize` (not by the column count of
`d`). -/
theorem gradient_is_rowsum_div_sampleSize (l : SparseBiasLayer)
    (d : Mat) (hr : nRows d = l.outSize) (_hs : 0 < l.sampleSize) :
    nRows (l.GradientVal d) = l.outSize ∧
    (∀ row ∈ l.GradientVal d, row.length = 1) ∧
    ∀ i, i < l.outSize →
      entry (l.GradientVal d) i 0 =
        (d.getD i []).sum / (l.sampleSize : ℚ) := by
  rw [GradientVal_eq]
  refine ⟨by simpa [nRows] using hr, ?_, ?_⟩
  · intro row hrow
    obtain ⟨r, _, rfl⟩ := List.mem_map.mp hrow
    rfl
  · intro i hi
    have hid : i < d.length := by
      unfold nRows at hr
      omega
    have hlen : i < (d.map fun r =>
        [r.sum / (l.sampleSize : ℚ)]).length := by
      simpa using hid
    unfold entry
    rw [List.getD_eq_getElem _ _ hlen, List.getElem_map,
      List.getD_eq_getElem d [] hid]
    rfl

/-- Witness for C1: the concrete layer `layerA` (`outSize = 2`,
`sampleSize = 3`) and a 2-row error matrix. -/
theorem gradient_is_rowsum_div_sampleSize_witness :
    (nRows [[(1 : ℚ), 2], [3, 3]] = layerA.outSize ∧
      0 < layerA.sampleSize) ∧
    (nRows (layerA.GradientVal [[(1 : ℚ), 2], [3, 3]]) =
        layerA.outSize ∧
      (∀ row ∈ layerA.GradientVal [[(1 : ℚ), 2], [3, 3]],
        row.length = 1) ∧
      ∀ i, i < layerA.outSize →
        entry (layerA.GradientVal [[(1 : ℚ), 2], [3, 3]]) i 0 =
          (([[(1 : ℚ), 2], [3, 3]] : Mat).getD i []).sum /
            (layerA.sampleSize : ℚ)) :=
  ⟨⟨by decide, by decide⟩,
    gradient_is_rowsum_div_sampleSize layerA [[(1 : ℚ), 2], [3, 3]]
      (by decide) (by decide)⟩

/-- C6: when the row count of the input differs from the layer's
`outSize` (the row count of `weights`), the conformance check of the
matrix addition inside `Forward` fails, so `Forward` signals the shape
mismatch (`none`) instead of producing a result. -/
theorem forward_shape_mismatch_fails (l : SparseBiasLayer)
    (input : Mat) (hw : nRows l.weights = l.outSize)
    (hne : nRows input ≠ l.outSize) :
    l.Forward input = none := by
  unfold Forward matAdd
  rw [if_neg]
  rintro ⟨hc, -⟩
  have hR : nRows (repmat l.weights 1 (nCols input)) = l.outSize := by
    unfold nRows
    rw [length_repmat_one]
    exact hw
  exact hne (hc.trans hR)

/-- Witness for C6: `layerA` has `outSize = 2` but the input has 3
rows, so `Forward` fails. -/
theorem forward_shape_mismatch_fails_witness :
    (nRows layerA.weights = layerA.outSize ∧
      nRows [[(0 : ℚ)], [0], [0]] ≠ layerA.outSize) ∧
    layerA.Forward [[(0 : ℚ)], [0], [0]] = none :=
  ⟨⟨by decide, by decide⟩,
    forward_shape_mismatch_fails layerA [[(0 : ℚ)], [0], [0]]
      (by decide) (by decide)⟩

/-- C2: for an input with exactly `outSize` rows (and a well-formed
`outSize × 1` weights vector, as established by construction), `Forward`
succeeds and returns a matrix of the same shape in which every column is
the corresponding input column plus the weights vector. -/
theorem forward_adds_weights_per_column (l : SparseBiasLayer)
    (input : Mat) (hw : nRows l.weights = l.outSize)
    (hwc : ∀ r ∈ l.weights, r.length = 1)
    (hin : nRows input = l.outSize) (hiwf : MatWF input) :
    ∃ out, l.Forward input = some out ∧
      nRows out = nRows input ∧ nCols out = nCols input ∧
      (∀ row ∈ out, row.length = nCols input) ∧
      ∀ i j, i < nRows input → j < nCols input →
        entry out i j = entry input i j + entry l.weights i 0 := by
  have hlen : input.length = l.weights.length := by
    unfold nRows at hw hin
    omega
  have hRlen : (repmat l.weights 1 (nCols input)).length =
      input.length := by
    rw [length_repmat_one, hlen]
  have hcols : nCols (repmat l.weights 1 (nCols input)) =
      nCols input := by
    rcases Nat.eq_zero_or_pos l.weights.length with h0 | hpos
    · have hw0 : l.weights = [] := List.length_eq_zero.mp h0
      have hin0 : input = [] := List.length_eq_zero.mp (by omega)
      rw [hw0, hin0]
      rfl
    · rw [nCols_eq_getD,
        repmat_one_row l.weights (nCols input) 0 hwc hpos,
        List.length_replicate]
  have hcond : nRows input = nRows (repmat l.weights 1 (nCols input)) ∧
      nCols input = nCols (repmat l.weights 1 (nCols input)) :=
    ⟨hRlen.symm, hcols.symm⟩
  have hforward : l.Forward input = some (List.zipWith
      (fun ra rb => List.zipWith (fun x y => x + y) ra rb) input
      (repmat l.weights 1 (nCols input))) := by
    unfold Forward matAdd
    rw [if_pos hcond]
  have houtlen : (List.zipWith
      (fun ra rb => List.zipWith (fun x y => x + y) ra rb) input
      (repmat l.weights 1 (nCols input))).length = input.length := by
    rw [List.length_zipWith, hRlen]
    exact Nat.min_self _
  have hrows : ∀ row ∈ List.zipWith
      (fun ra rb => List.zipWith (fun x y => x + y) ra rb) input
      (repmat l.weights 1 (nCols input)), row.length = nCols input := by
    intro row hrow
    rw [List.mem_iff_getElem] at hrow
    obtain ⟨i, hi, rfl⟩ := hrow
    have hii : i < input.length := by
      rw [houtlen] at hi
      exact hi
    have hiR : i < (repmat l.weights 1 (nCols input)).length := by
      rw [hRlen]
      exact hii
    have hiw : i < l.weights.length := by
      rw [← hlen]
      exact hii
    have hRrow : (repmat l.weights 1 (nCols input))[i] =
        List.replicate (nCols input) (entry l.weights i 0) := by
      have hrr := repmat_one_row l.weights (nCols input) i hwc hiw
      rw [List.getD_eq_getElem _ _ hiR] at hrr
      exact hrr
    simp only [List.getElem_zipWith, List.length_zipWith]
    rw [hiwf (input[i]) (List.getElem_mem hii),
      hRrow, List.length_replicate]
    exact Nat.min_self _
  have hcolsout : nCols (List.zipWith
      (fun ra rb => List.zipWith (fun x y => x + y) ra rb) input
      (repmat l.weights 1 (nCols input))) = nCols input := by
    rcases Nat.eq_zero_or_pos (List.zipWith
        (fun ra rb => List.zipWith (fun x y => x + y) ra rb) input
        (repmat l.weights 1 (nCols input))).length with h0 | hpos
    · have hin0 : input = [] := by
        rw [houtlen] at h0
        exact List.length_eq_zero.mp h0
      have hout0 : List.zipWith
          (fun ra rb => List.zipWith (fun x y => x + y) ra rb) input
          (repmat l.weights 1 (nCols input)) = [] :=
        List.length_eq_zero.mp h0
      rw [hout0, hin0]
    · rw [nCols_eq_getD, List.getD_eq_getElem _ _ hpos]
      exact hrows _ (List.getElem_mem hpos)
  refine ⟨_, hforward, houtlen, hcolsout, hrows, ?_⟩
  intro i j hi hj
  have hii : i < input.length := hi
  have hiR : i < (repmat l.weights 1 (nCols input)).length := by
    rw [hRlen]
    exact hii
  have hiw : i < l.weights.length := by
    rw [← hlen]
    exact hii
  have hiout : i < (List.zipWith
      (fun ra rb => List.zipWith (fun x y => x + y) ra rb) input
      (repmat l.weights 1 (nCols input))).length := by
    rw [houtlen]
    exact hii
  have hRrow : (repmat l.weights 1 (nCols input))[i] =
      List.replicate (nCols input) (entry l.weights i 0) := by
    have hrr := repmat_one_row l.weights (nCols input) i hwc hiw
    rw [List.getD_eq_getElem _ _ hiR] at hrr
    exact hrr
  have hinrow : (input[i]).length = nCols input :=
    hiwf (input[i]) (List.getElem_mem hii)
  have hjin : j < (input[i]).length := by
    rw [hinrow]
    exact hj
  have hjout : j < ((List.zipWith
      (fun ra rb => List.zipWith (fun x y => x + y) ra rb) input
      (repmat l.weights 1 (nCols input)))[i]).length := by
    simp only [List.getElem_zipWith, List.length_zipWith, hinrow,
      hRrow, List.length_replicate]
    exact Nat.lt_min.mpr ⟨hj, hj⟩
  rw [entry_eq_getElem _ i j hiout hjout,
    entry_eq_getElem input i j hii hjin]
  simp only [List.getElem_zipWith]
  simp only [hRrow, List.getElem_replicate]

/-- Witness for C2: the concrete layer `layerA` (`outSize = 2`, weights
`[[1], [2]]`) and a well-formed 2-by-2 input. -/
theorem forward_adds_weights_per_column_witness :
    (nRows layerA.weights = layerA.outSize ∧
      (∀ r ∈ layerA.weights, r.length = 1) ∧
      nRows [[(0 : ℚ), 0], [0, 0]] = layerA.outSize ∧
      MatWF [[(0 : ℚ), 0], [0, 0]]) ∧
    (∃ out, layerA.Forward [[(0 : ℚ), 0], [0, 0]] = some out ∧
      nRows out = nRows [[(0 : ℚ), 0], [0, 0]] ∧
      nCols out = nCols [[(0 : ℚ), 0], [0, 0]] ∧
      (∀ row ∈ out, row.length = nCols [[(0 : ℚ), 0], [0, 0]]) ∧
      ∀ i j, i < nRows [[(0 : ℚ), 0], [0, 0]] →
        j < nCols [[(0 : ℚ), 0], [0, 0]] →
        entry out i j = entry [[(0 : ℚ), 0], [0, 0]] i j +
          entry layerA.weights i 0) :=
  ⟨⟨by decide, by decide, by decide, by decide⟩,
    forward_adds_weights_per_column layerA [[(0 : ℚ), 0], [0, 0]]
      (by decide) (by decide) (by decide) (by decide)⟩

/-- C4 counterexample: move-assigning a source into a destination whose
buffers are non-empty does not leave the source with empty buffers: with
destination `layerB` (weights `[[5]]`), after the move the source's
weights are `layerB`'s old weights, not `[]`. -/
theorem move_source_buffers_not_emptied_cex :
    (moveAssign layerB layerA).2.weights ≠ [] := by
  decide

/-- C4 amended: after move-assigning source `a` into destination `b`,
the source's optimizer pointer is null and its owning flag false; the
destination holds the source's former pointer and flag; `outSize` and
`sampleSize` are copied to the destination; the destination's five
buffers hold the source's former contents and the source's five buffers
hold the destination's pre-assignment contents (a swap — they are
empty/default only when the destination's buffers were empty, as in move
construction, whose source does end with empty buffers); and among the
two layers at most one live owner of any optimizer instance remains. -/
theorem move_transfer_amended (b a : SparseBiasLayer) :
    (moveAssign b a).2.optimizer = none ∧
    (moveAssign b a).2.ownsOptimizer = false ∧
    (moveAssign b a).1.optimizer = a.optimizer ∧
    (moveAssign b a).1.ownsOptimizer = a.ownsOptimizer ∧
    (moveAssign b a).1.outSize = a.outSize ∧
    (moveAssign b a).1.sampleSize = a.sampleSize ∧
    (moveAssign b a).1.weights = a.weights ∧
    (moveAssign b a).1.delta = a.delta ∧
    (moveAssign b a).1.gradient = a.gradient ∧
    (moveAssign b a).1.inputParameter = a.inputParameter ∧
    (moveAssign b a).1.outputParameter = a.outputParameter ∧
    (moveAssign b a).2.weights = b.weights ∧
    (moveAssign b a).2.delta = b.delta ∧
    (moveAssign b a).2.gradient = b.gradient ∧
    (moveAssign b a).2.inputParameter = b.inputParameter ∧
    (moveAssign b a).2.outputParameter = b.outputParameter ∧
    (∀ j, ownerCount [(moveAssign b a).2, (moveAssign b a).1] j ≤ 1) ∧
    (moveConstruct a).2.weights = [] ∧
    (moveConstruct a).2.delta = [] ∧
    (moveConstruct a).2.gradient = [] ∧
    (moveConstruct a).2.inputParameter = [] ∧
    (moveConstruct a).2.outputParameter = [] := by
  refine ⟨rfl, rfl, rfl, rfl, rfl, rfl, rfl, rfl, rfl, rfl, rfl, rfl,
    rfl, rfl, rfl, rfl, ?_, rfl, rfl, rfl, rfl, rfl⟩
  intro j
  simp only [ownerCount, ownsHandle, moveAssign, List.filter,
    Bool.false_and]
  split <;> simp

/-- C8: move-assigning source `a` into a destination `b` that already
holds non-empty buffers exchanges buffer contents rather than clearing
the source: afterwards the source's five buffers hold `b`'s
pre-assignment contents and in particular are not empty. -/
theorem move_assign_swaps_buffers (b a : SparseBiasLayer)
    (hw : b.weights ≠ []) (hd : b.delta ≠ []) (hg : b.gradient ≠ [])
    (hi : b.inputParameter ≠ []) (ho : b.outputParameter ≠ []) :
    (moveAssign b a).2.weights = b.weights ∧
    (moveAssign b a).2.weights ≠ [] ∧
    (moveAssign b a).2.delta = b.delta ∧
    (moveAssign b a).2.delta ≠ [] ∧
    (moveAssign b a).2.gradient = b.gradient ∧
    (moveAssign b a).2.gradient ≠ [] ∧
    (moveAssign b a).2.inputParameter = b.inputParameter ∧
    (moveAssign b a).2.inputParameter ≠ [] ∧
    (moveAssign b a).2.outputParameter = b.outputParameter ∧
    (moveAssign b a).2.outputParameter ≠ [] :=
  ⟨rfl, hw, rfl, hd, rfl, hg, rfl, hi, rfl, ho⟩

/-- Witness for C8 at the concrete layers `layerB` (destination, all
buffers non-empty) and `layerA` (source). -/
theorem move_assign_swaps_buffers_witness :
    (layerB.weights ≠ [] ∧ layerB.delta ≠ [] ∧ layerB.gradient ≠ [] ∧
      layerB.inputParameter ≠ [] ∧ layerB.outputParameter ≠ []) ∧
    ((moveAssign layerB layerA).2.weights = layerB.weights ∧
      (moveAssign layerB layerA).2.weights ≠ [] ∧
      (moveAssign layerB layerA).2.delta = layerB.delta ∧
      (moveAssign layerB layerA).2.delta ≠ [] ∧
      (moveAssign layerB layerA).2.gradient = layerB.gradient ∧
      (moveAssign layerB layerA).2.gradient ≠ [] ∧
      (moveAssign layerB layerA).2.inputParameter = layerB.inputParameter ∧
      (moveAssign layerB layerA).2.inputParameter ≠ [] ∧
      (moveAssign layerB layerA).2.outputParameter = layerB.outputParameter ∧
      (moveAssign layerB layerA).2.outputParameter ≠ []) :=
  ⟨⟨by decide, by decide, by decide, by decide, by decide⟩,
    move_assign_swaps_buffers layerB layerA (by decide) (by decide)
      (by decide) (by decide) (by decide)⟩

/-- A layer whose optimizer pointer does not designate `j` cannot
release `j` on destruction. -/
theorem not_mem_destroyReleases (l : SparseBiasLayer) (j : Nat)
    (h : l.optimizer ≠ some j) : j ∉ destroyReleases l := by
  rcases ho : l.optimizer with _ | i <;> rcases hb : l.ownsOptimizer <;>
    simp [destroyReleases, ho, hb]
  rintro rfl
  exact h ho

/-- C9: move-assigning `a` into a destination `b` that owns optimizer
`j` overwrites `b`'s pointer and flag with `a`'s without releasing `j`:
neither resulting layer references `j`, destroying either releases
nothing for `j`, and further move assignments among layers that do not
reference `j` never produce a layer referencing `j` nor a destruction
releasing `j`. -/
theorem move_assign_leaks_target_optimizer (b a : SparseBiasLayer)
    (j : Nat) (_hb : b.ownsOptimizer = true) (_hbj : b.optimizer = some j)
    (haj : a.optimizer ≠ some j) :
    (moveAssign b a).1.optimizer = a.optimizer ∧
    (moveAssign b a).1.ownsOptimizer = a.ownsOptimizer ∧
    (moveAssign b a).1.optimizer ≠ some j ∧
    (moveAssign b a).2.optimizer ≠ some j ∧
    j ∉ destroyReleases (moveAssign b a).1 ∧
    j ∉ destroyReleases (moveAssign b a).2 ∧
    ∀ c d : SparseBiasLayer, c.optimizer ≠ some j →
      d.optimizer ≠ some j →
      (moveAssign c d).1.optimizer ≠ some j ∧
      (moveAssign c d).2.optimizer ≠ some j ∧
      j ∉ destroyReleases (moveAssign c d).1 ∧
      j ∉ destroyReleases (moveAssign c d).2 := by
  refine ⟨rfl, rfl, haj, by simp [moveAssign],
    not_mem_destroyReleases _ j haj,
    not_mem_destroyReleases _ j (by simp [moveAssign]), ?_⟩
  intro c d _hc hd
  exact ⟨hd, by simp [moveAssign], not_mem_destroyReleases _ j hd,
    not_mem_destroyReleases _ j (by simp [moveAssign])⟩

/-- Witness for C9 at the concrete layers `layerB` (destination, owning
optimizer 2) and `layerA` (source, holding optimizer 1). -/
theorem move_assign_leaks_target_optimizer_witness :
    (layerB.ownsOptimizer = true ∧ layerB.optimizer = some 2 ∧
      layerA.optimizer ≠ some 2) ∧
    ((moveAssign layerB layerA).1.optimizer = layerA.optimizer ∧
      (moveAssign layerB layerA).1.ownsOptimizer =
        layerA.ownsOptimizer ∧
      (moveAssign layerB layerA).1.optimizer ≠ some 2 ∧
      (moveAssign layerB layerA).2.optimizer ≠ some 2 ∧
      2 ∉ destroyReleases (moveAssign layerB layerA).1 ∧
      2 ∉ destroyReleases (moveAssign layerB layerA).2 ∧
      ∀ c d : SparseBiasLayer, c.optimizer ≠ some 2 →
        d.optimizer ≠ some 2 →
        (moveAssign c d).1.optimizer ≠ some 2 ∧
        (moveAssign c d).2.optimizer ≠ some 2 ∧
        2 ∉ destroyReleases (moveAssign c d).1 ∧
        2 ∉ destroyReleases (moveAssign c d).2) :=
  ⟨⟨by decide, by decide, by decide⟩,
    move_assign_leaks_target_optimizer layerB layerA 2 (by decide)
      (by decide) (by decide)⟩

/-- Along a chain of `n` move constructions, the final layer carries the
original optimizer pointer and ownership flag while every moved-from
husk has a null pointer and a cleared flag. -/
theorem moveChain_husks (n : Nat) (l : SparseBiasLayer) :
    (moveChain n l).2.optimizer = l.optimizer ∧
    (moveChain n l).2.ownsOptimizer = l.ownsOptimizer ∧
    ∀ h ∈ (moveChain n l).1, h.optimizer = none ∧
      h.ownsOptimizer = false := by
  induction n generalizing l with
  | zero => exact ⟨rfl, rfl, by simp [moveChain]⟩
  | succ n ih =>
      obtain ⟨h1, h2, h3⟩ := ih (moveConstruct l).1
      refine ⟨?_, ?_, ?_⟩
      · simpa [moveChain] using h1
      · simpa [moveChain] using h2
      · intro h hmem
        simp only [moveChain, List.mem_cons] at hmem
        rcases hmem with rfl | hmem
        · exact ⟨rfl, rfl⟩
        · exact h3 h hmem

/-- C5: construct a layer owning a fresh optimizer `optId`, move it `n`
times, then destroy every resulting layer: the optimizer is released
exactly once (the flattened list of release events is `[optId]`);
destroying any of the moved-from husks releases nothing; and in general
destroying a layer whose owning flag is cleared releases nothing. -/
theorem optimizer_released_exactly_once (n os ss : Nat)
    (init : Nat → Nat → Mat) (optId : Nat) :
    ((((moveChain n (construct os ss init optId)).1 ++
        [(moveChain n (construct os ss init optId)).2]).map
          destroyReleases).flatten = [optId]) ∧
    (∀ h ∈ (moveChain n (construct os ss init optId)).1,
      destroyReleases h = []) ∧
    ∀ l : SparseBiasLayer, l.ownsOptimizer = false →
      destroyReleases l = [] := by
  obtain ⟨h1, h2, h3⟩ := moveChain_husks n (construct os ss init optId)
  have ho : (moveChain n (construct os ss init optId)).2.optimizer =
      some optId := h1.trans rfl
  have hw2 : (moveChain n (construct os ss init optId)).2.ownsOptimizer =
      true := h2.trans rfl
  have hrel : ∀ h ∈ (moveChain n (construct os ss init optId)).1,
      destroyReleases h = [] := by
    intro h hm
    obtain ⟨ho, hw⟩ := h3 h hm
    simp [destroyReleases, ho, hw]
  refine ⟨?_, hrel, fun l hl => by simp [destroyReleases, hl]⟩
  rw [List.map_append, List.flatten_append]
  have hnil : (((moveChain n (construct os ss init optId)).1).map
      destroyReleases).flatten = [] := by
    rw [List.flatten_eq_nil_iff]
    intro x hx
    obtain ⟨h, hm, rfl⟩ := List.mem_map.mp hx
    exact hrel h hm
  rw [hnil]
  simp [destroyReleases, ho, hw2]

end SparseBiasLayer

/-- C7: the capability descriptor of the bias layer is the constant
record with `IsBinary = false`, `IsOutputLayer = false`,
`IsBiasLayer = true`, `IsLSTMLayer = false`, `IsConnection = true`; it
is a type-level constant, the same for every instantiation of the class
and touched by no operation. -/
theorem layer_traits_constant :
    sparseBiasLayerTraits.IsBinary = false ∧
    sparseBiasLayerTraits.IsOutputLayer = false ∧
    sparseBiasLayerTraits.IsBiasLayer = true ∧
    sparseBiasLayerTraits.IsLSTMLayer = false ∧
    sparseBiasLayerTraits.IsConnection = true ∧
    sparseBiasLayerTraits =
      { IsBinary := false
        IsOutputLayer := false
        IsBiasLayer := true
        IsLSTMLayer := false
        IsConnection := true } :=
  ⟨rfl, rfl, rfl, rfl, rfl, rfl⟩

end Mlpack
